import Mathlib

/-!
Verification of the vits streaming TTS core: sentence-boundary segmenter
(`src/chunking.ts`), audio buffer manager (`src/buffer-manager.ts`) and the
streaming session orchestrator (`predictStream` / `cancelStream`).

Text is modelled as `List Char` (JS strings are indexed per code unit; all
inputs considered here are ASCII, where the two notions agree).  PCM sample
values (JS `number` / `Float32Array` entries) are modelled as exact rationals
`ℚ`; machine sample counts and indices are `Nat` / `Int` as in the source.
-/

namespace Vits

/-- Convert a Lean string literal to the `List Char` representation used by
the model. -/
def str (s : String) : List Char := s.data

/-! ## Character classes (JS regex character classes over ASCII input) -/

/-- JS `\s` (whitespace) restricted to the ASCII range. -/
def isWSChar (c : Char) : Bool :=
  c = ' ' || c = '\t' || c = '\n' || c = '\r' || c = '\x0B' || c = '\x0C'

/-- JS `[a-z]`. -/
def isLowerAlpha (c : Char) : Bool := 'a' ≤ c && c ≤ 'z'

/-- JS `[A-Z]`. -/
def isUpperAlpha (c : Char) : Bool := 'A' ≤ c && c ≤ 'Z'

/-- JS `\d`. -/
def isDigitChar (c : Char) : Bool := '0' ≤ c && c ≤ '9'

/-- JS `[a-zA-Z]`. -/
def isAlphaChar (c : Char) : Bool := isLowerAlpha c || isUpperAlpha c

/-- JS `String.prototype.toLowerCase` on a single ASCII character. -/
def lowerChar (c : Char) : Char :=
  if 'A' ≤ c && c ≤ 'Z' then Char.ofNat (c.toNat + 32) else c

/-- Does the list start with a character satisfying `p`?  Used to model
anchored one-character regex tests; an empty list (JS `undefined` / `''`)
never matches. -/
def headSat (p : Char → Bool) : List Char → Bool
  | [] => false
  | c :: _ => p c

/-! ## Sentence boundary detection (`src/chunking.ts`) -/

/-- The fixed abbreviation set `ABBREVIATIONS` from `src/chunking.ts`. -/
def abbreviations : List (List Char) :=
  [str "mr", str "mrs", str "ms", str "dr", str "prof", str "sr", str "jr",
   str "vs", str "etc", str "inc", str "ltd", str "co", str "corp", str "st",
   str "ave", str "blvd", str "rd", str "dept", str "govt", str "univ",
   str "jan", str "feb", str "mar", str "apr", str "jun", str "jul",
   str "aug", str "sep", str "oct", str "nov", str "dec", str "mon",
   str "tue", str "wed", str "thu", str "fri", str "sat", str "sun",
   str "no", str "nos", str "vol", str "vols", str "rev", str "est",
   str "approx", str "fig", str "figs", str "eg", str "ie", str "cf",
   str "al", str "et"]

/-- JS `/[.!?]/.test(char)` — the `sentenceEnders` pattern. -/
def sentenceEnder (c : Char) : Bool := c = '.' || c = '!' || c = '?'

/-- `getWordBefore(text, pos)`: the maximal run of letters immediately
before `pos` (scanning backwards while `[a-zA-Z]`). -/
def getWordBefore (text : List Char) (pos : Nat) : List Char :=
  ((text.take pos).reverse.takeWhile isAlphaChar).reverse

/-- JS `/^\s+([A-Z])/.test(rest)`: one or more whitespace characters then an
uppercase letter.  Since `\s` and `[A-Z]` are disjoint this is: first char is
whitespace and the first non-whitespace char is uppercase. -/
def matchWsUpper (l : List Char) : Bool :=
  headSat isWSChar l && headSat isUpperAlpha (l.dropWhile isWSChar)

/-- JS `/^\s+([A-Z]\.)/.test(rest)`: whitespace run, an uppercase letter,
then a period. -/
def matchWsUpperDot (l : List Char) : Bool :=
  headSat isWSChar l &&
    (match l.dropWhile isWSChar with
     | a :: b :: _ => isUpperAlpha a && b = '.'
     | _ => false)

/-- JS `/^\s+[a-z]/.test(s)` on a string of length at most 2 (the
`afterQuote` slice): only a single whitespace then a lowercase letter can
match. -/
def wsLowerPair : List Char → Bool
  | a :: b :: _ => isWSChar a && isLowerAlpha b
  | _ => false

/-- JS `/^\s+[A-Z"]/.test(s)` on a string of length at most 2 (the
`afterPunc` slice): a single whitespace then an uppercase letter or `"`. -/
def wsUpperOrQuotePair : List Char → Bool
  | a :: b :: _ => isWSChar a && (isUpperAlpha b || b = '"')
  | _ => false

/-- `/^[A-Z]$/.test(w)`: `w` is a single uppercase letter. -/
def isSingleUpper : List Char → Bool
  | [c] => isUpperAlpha c
  | _ => false

/-- `isSentenceBoundary(text, pos)` from `src/chunking.ts`, translated
check-for-check.  Out-of-range character reads (JS `undefined`) are modelled
with `Option` lookups `l[i]?`. -/
def isSentenceBoundary (text : List Char) (pos : Nat) : Bool :=
  match text[pos]? with
  | none => false
  | some char =>
    -- must be sentence-ending punctuation
    if !(sentenceEnder char) then false
    -- ellipsis: a '.' followed by two more periods
    else if char = '.' && text[pos+1]? = some '.' && text[pos+2]? = some '.' then false
    else
      -- afterPunc = text.slice(pos + 1, pos + 3)
      let afterPunc := (text.drop (pos+1)).take 2
      -- followed by lowercase letter without space
      if headSat isLowerAlpha afterPunc then false
      -- '.' followed by a digit (e.g. "3.14")
      else if char = '.' && headSat isDigitChar afterPunc then false
      -- abbreviation before the period, not used sentence-finally
      else if char = '.' && abbreviations.contains ((getWordBefore text pos).map lowerChar)
              && !(matchWsUpper (text.drop (pos+1))) then false
      -- single-capital initial with more initials coming
      else if char = '.' && isSingleUpper (getWordBefore text pos)
              && matchWsUpperDot (text.drop (pos+1)) then false
      -- closing quote then whitespace + lowercase: quoted clause continues
      else if (text[pos+1]? = some '"' || text[pos+1]? = some '\'')
              && wsLowerPair ((text.drop (pos+2)).take 2) then false
      -- whitespace + capital/quote, or only whitespace to end of text
      else if wsUpperOrQuotePair afterPunc || (text.drop (pos+1)).all isWSChar then true
      -- end of text
      else if pos + 1 = text.length then true
      -- default: followed by whitespace
      else headSat isWSChar (text.drop (pos+1))

/-- `detectSentenceBoundaries(text)`: indices of the sentence-ending
punctuation marks classified as true boundaries. -/
def detectSentenceBoundaries (text : List Char) : List Nat :=
  (List.range text.length).filter (fun i =>
    match text[i]? with
    | some c => sentenceEnder c && isSentenceBoundary text i
    | none => false)

/-! ## Sentence splitting -/

/-- One pass of `text.replace(/\s+/g, ' ')`: each maximal whitespace run is
replaced by a single space.  The flag records whether the previous character
was part of a whitespace run already emitted. -/
def collapseWSAux : Bool → List Char → List Char
  | _, [] => []
  | prevWS, c :: rest =>
    if isWSChar c then
      if prevWS then collapseWSAux true rest
      else ' ' :: collapseWSAux true rest
    else c :: collapseWSAux false rest

/-- `text.replace(/\s+/g, ' ')`. -/
def collapseWS (l : List Char) : List Char := collapseWSAux false l

/-- JS `String.prototype.trim()` (ASCII whitespace). -/
def trimWS (l : List Char) : List Char :=
  ((l.dropWhile isWSChar).reverse.dropWhile isWSChar).reverse

/-- The `while (end < normalized.length && /["']/.test(normalized[end])) end++`
loop of `splitIntoSentences`: advance past closing quotes. -/
def advanceQuotes (l : List Char) (e : Nat) : Nat :=
  e + ((l.drop e).takeWhile (fun c => c = '"' || c = '\'')).length

/-- The boundary loop of `splitIntoSentences` plus the trailing-remainder
step: cut the normalized text at each boundary (including the punctuation
and trailing closing quotes), trim, drop empties, then append the trimmed
remainder if nonempty. -/
def buildSentences (normalized : List Char) : List Nat → Nat → List (List Char)
  | [], start =>
    let remaining := trimWS (normalized.drop start)
    if remaining = [] then [] else [remaining]
  | b :: bs, start =>
    let e := advanceQuotes normalized (b + 1)
    let sentence := trimWS ((normalized.take e).drop start)
    if sentence = [] then buildSentences normalized bs e
    else sentence :: buildSentences normalized bs e

/-- `splitIntoSentences(text)` from `src/chunking.ts`. -/
def splitIntoSentences (text : List Char) : List (List Char) :=
  let normalized := collapseWS (trimWS text)
  let boundaries := detectSentenceBoundaries normalized
  if boundaries = [] then [normalized]
  else buildSentences normalized boundaries 0

/-! ## Text chunk construction -/

/-- `TextChunk` from `src/streaming-types.ts` (`text`, `index`, `isFirst`,
`isLast`, optional `previousContext` / `lookaheadContext`). -/
structure TextChunk where
  text : List Char
  index : Nat
  isFirst : Bool
  isLast : Bool
  previousContext : Option (List Char)
  lookaheadContext : Option (List Char)
deriving DecidableEq, Repr

/-- JS `Array.prototype.join(' ')` over sentence lists. -/
def joinSp (l : List (List Char)) : List Char := List.intercalate (str " ") l

/-- The chunk-building loop of `createTextChunks`, iterating `i` by
`chunkSize` while `i < sentences.length`; `idx` is `chunks.length` at entry
(the emitted-chunk count).  The source loop does not terminate when
`chunkSize = 0`; the model returns `[]` in that (unused) case, which the
`0 < cs` guard makes explicit. -/
def chunksFrom (s : List (List Char)) (cs la : Nat) (i idx : Nat) : List TextChunk :=
  if h : i < s.length ∧ 0 < cs then
    { text := joinSp ((s.drop i).take cs)
      index := idx
      isFirst := i = 0
      isLast := s.length ≤ i + cs
      -- prevStart = max(0, i - lookahead); slice(prevStart, i)
      previousContext := if 0 < i then some (joinSp ((s.take i).drop (i - la))) else none
      -- lookaheadEnd = min(length, i + cs + la); slice(i + cs, lookaheadEnd)
      lookaheadContext :=
        if i + cs < s.length then
          some (joinSp ((s.take (min s.length (i + cs + la))).drop (i + cs)))
        else none } :: chunksFrom s cs la (i + cs) (idx + 1)
  else []
termination_by s.length - i
decreasing_by omega

/-- `createTextChunks(text, chunkSize, lookahead)` from `src/chunking.ts`. -/
def createTextChunks (text : List Char) (chunkSize lookahead : Nat) : List TextChunk :=
  chunksFrom (splitIntoSentences text) chunkSize lookahead 0 0

/-! ## Audio buffer manager (`src/buffer-manager.ts`)

PCM sample values are exact rationals.  The WAV `Blob` of a chunk is a pure
re-encoding of its `pcm` field (`pcm2wav`) and the `metrics` record is an
opaque passthrough; neither carries information beyond the modelled fields,
so both are omitted from the embedding. -/

/-- `AudioChunk` from `src/streaming-types.ts` (without the derived `blob`
and the passthrough `metrics`). -/
structure AudioChunk where
  pcm : List ℚ
  index : Nat
  startTime : ℚ
  duration : ℚ
  isFirst : Bool
  isLast : Bool
  text : List Char
deriving DecidableEq, Repr

/-- `BufferManagerOptions` from `src/streaming-types.ts`; `none` models an
omitted (undefined) option field. -/
structure BufferManagerOptions where
  sampleRate : Option ℚ
  crossfade : Option Bool
  crossfadeDuration : Option ℚ
  normalize : Option Bool
  targetPeak : Option ℚ
deriving DecidableEq, Repr

/-- The private state of `AudioBufferManager`.  `crossfadeSamples` is an
`Int` because `Math.floor` of a (possibly negative) product is an integer. -/
structure AudioBufferManager where
  chunks : List AudioChunk
  sampleRate : ℚ
  crossfade : Bool
  crossfadeSamples : Int
  normalize : Bool
  targetPeak : ℚ
  totalDuration : ℚ
deriving DecidableEq, Repr

/-- The `AudioBufferManager` constructor: `??`-defaults for every option and
`crossfadeSamples = Math.floor(crossfadeDuration * sampleRate / 1000)`.
The source performs no validation of any option value. -/
def createBufferManager (options : BufferManagerOptions) : AudioBufferManager :=
  let sampleRate := options.sampleRate.getD 22050
  { chunks := []
    sampleRate := sampleRate
    crossfade := options.crossfade.getD true
    crossfadeSamples := ⌊(options.crossfadeDuration.getD 20) * sampleRate / 1000⌋
    normalize := options.normalize.getD true
    targetPeak := options.targetPeak.getD 0.95
    totalDuration := 0 }

/-- `setSampleRate(sampleRate)`: overwrites the rate and recomputes
`crossfadeSamples = Math.floor(20 * sampleRate / 1000)` with the hard-coded
20 ms duration. -/
def setSampleRate (m : AudioBufferManager) (sampleRate : ℚ) : AudioBufferManager :=
  { m with sampleRate := sampleRate, crossfadeSamples := ⌊20 * sampleRate / 1000⌋ }

/-- `findPeak(pcm)`: running maximum of absolute amplitudes, starting at 0. -/
def findPeak (pcm : List ℚ) : ℚ :=
  pcm.foldl (fun peak x => if |x| > peak then |x| else peak) 0

/-- `normalizeAudio(pcm)` with target peak `t`: identity when the peak is 0
or already at least `t`; otherwise scale by `t / peak` with each sample
clamped to `[-1, 1]`. -/
def normalizeAudio (t : ℚ) (pcm : List ℚ) : List ℚ :=
  let peak := findPeak pcm
  if peak = 0 ∨ peak ≥ t then pcm
  else
    let gain := t / peak
    pcm.map (fun x => max (-1) (min 1 (x * gain)))

/-- `applyCrossfadeIn(pcm)`: linear 0→1 ramp over
`fadeSamples = min(crossfadeSamples, pcm.length)` leading samples. -/
def applyCrossfadeIn (cf : Int) (pcm : List ℚ) : List ℚ :=
  let fadeSamples : Int := min cf (pcm.length : Int)
  pcm.mapIdx (fun i x =>
    if (i : Int) < fadeSamples then x * ((i : ℚ) / (fadeSamples : ℚ)) else x)

/-- `applyCrossfadeOut(pcm)`: linear 1→0 ramp over the trailing
`fadeSamples = min(crossfadeSamples, pcm.length)` samples. -/
def applyCrossfadeOut (cf : Int) (pcm : List ℚ) : List ℚ :=
  let fadeSamples : Int := min cf (pcm.length : Int)
  let startIdx : Int := (pcm.length : Int) - fadeSamples
  pcm.mapIdx (fun j x =>
    if startIdx ≤ (j : Int) then
      x * (1 - (((j : Int) - startIdx : Int) : ℚ) / (fadeSamples : ℚ))
    else x)

/-- Replace the last element of a list, if any: models the in-place
`this.chunks[this.chunks.length - 1] = ...` updates of the source. -/
def modifyLast {α : Type} (f : α → α) : List α → List α
  | [] => []
  | [c] => [f c]
  | c :: c' :: rest => c :: modifyLast f (c' :: rest)

/-- `addChunk(pcm, text, metrics)`: normalize, crossfade against the stored
previous chunk (fade-in on this chunk, retroactive fade-out on the previous
chunk's stored samples), account duration and startTime, append.  Returns
the updated manager and the chunk handed to the caller. -/
def addChunk (m : AudioBufferManager) (pcm : List ℚ) (text : List Char) :
    AudioBufferManager × AudioChunk :=
  let index := m.chunks.length
  let isF : Bool := index = 0
  let processed := if m.normalize then normalizeAudio m.targetPeak pcm else pcm
  -- `this.crossfade && !isFirst && this.chunks.length > 0`
  let crossfading : Bool := m.crossfade && !isF && decide (0 < m.chunks.length)
  let processed2 := if crossfading then applyCrossfadeIn m.crossfadeSamples processed
    else processed
  let chunks1 := if crossfading then
      modifyLast (fun prev => { prev with
        pcm := applyCrossfadeOut m.crossfadeSamples prev.pcm }) m.chunks
    else m.chunks
  let duration := (processed2.length : ℚ) / m.sampleRate
  let startTime := m.totalDuration
  let chunk : AudioChunk :=
    { pcm := processed2, index := index, startTime := startTime,
      duration := duration, isFirst := isF, isLast := false, text := text }
  let m1 : AudioBufferManager :=
    { m with chunks := chunks1 ++ [chunk], totalDuration := m.totalDuration + duration }
  (m1, chunk)

/-- A sequence of `addChunk` calls (empty `text` for each), collecting the
returned chunks in call order. -/
def runAddChunks (m : AudioBufferManager) :
    List (List ℚ) → AudioBufferManager × List AudioChunk
  | [] => (m, [])
  | p :: ps =>
    let r := addChunk m p []
    let rest := runAddChunks r.1 ps
    (rest.1, r.2 :: rest.2)

/-- `finalize()`: set `isLast = true` on the most recently appended chunk;
no-op when no chunks exist. -/
def finalizeBuffer (m : AudioBufferManager) : AudioBufferManager :=
  { m with chunks := modifyLast (fun c => { c with isLast := true }) m.chunks }

/-- `getTotalDuration()`. -/
def getTotalDuration (m : AudioBufferManager) : ℚ := m.totalDuration

/-! ## Concatenation (`getConcatenatedBlob`)

The source allocates a `Float32Array` of the summed chunk lengths and writes
into it.  Single-element stores on a JS typed array silently ignore
out-of-range indices, which `jsSetElem` reproduces exactly.  The bulk
`TypedArray.set` throws a `RangeError` when the write would run out of
range; `jsSetRange` models it as element stores, which agrees with the
source on every execution in which the source does not throw (all runs
appearing in the theorems below are of that kind). -/

/-- A single JS typed-array store `a[i] = v` (out-of-range stores are
ignored). -/
def jsSetElem (a : List ℚ) (i : Int) (v : ℚ) : List ℚ :=
  if 0 ≤ i then a.set i.toNat v else a

/-- A JS typed-array read `a[i]`; in-range in every execution reached by the
theorems below. -/
def jsGetD (a : List ℚ) (i : Int) : ℚ :=
  if 0 ≤ i then a.getD i.toNat 0 else 0

/-- `a.set(src, off)` as consecutive element stores. -/
def jsSetRange : List ℚ → Int → List ℚ → List ℚ
  | a, _, [] => a
  | a, off, v :: rest => jsSetRange (jsSetElem a off v) (off + 1) rest

/-- The blend loop of `getConcatenatedBlob`: for
`i < crossfadeSamples && i < chunk.pcm.length`, when `overlapStart + i ≥ 0`,
overwrite `a[overlapStart+i]` with
`a[overlapStart+i] * (1 - i/cf) + chunk[i] * (i/cf)`. -/
def blendLoop (cf os : Int) : List ℚ → Nat → List ℚ → List ℚ
  | a, _, [] => a
  | a, i, v :: rest =>
    if (i : Int) < cf then
      -- fadeIn = i / crossfadeSamples, fadeOut = 1 - fadeIn
      blendLoop cf os
        (if 0 ≤ os + (i : Int) then
          jsSetElem a (os + (i : Int))
            (jsGetD a (os + (i : Int)) * (1 - (i : ℚ) / (cf : ℚ)) + v * ((i : ℚ) / (cf : ℚ)))
        else a)
        (i + 1) rest
    else a

/-- Loop state of `getConcatenatedBlob`: the output buffer and the running
write offset. -/
structure ConcatSt where
  buf : List ℚ
  offset : Int
deriving DecidableEq, Repr

/-- One iteration of the `for (const chunk of this.chunks)` loop of
`getConcatenatedBlob`. -/
def concatStep (crossfade : Bool) (cf : Int) (st : ConcatSt) (pcm : List ℚ) : ConcatSt :=
  if crossfade = true ∧ 0 < st.offset ∧ 0 < cf then
    -- blend over overlapStart = offset - crossfadeSamples, then copy the rest
    ⟨jsSetRange (blendLoop cf (st.offset - cf) st.buf 0 pcm) st.offset (pcm.drop cf.toNat),
     st.offset + (pcm.length : Int) - cf⟩
  else
    ⟨jsSetRange st.buf st.offset pcm, st.offset + (pcm.length : Int)⟩

/-- `a.slice(0, e)` on a typed array: a negative end counts from the end of
the array; the result is clamped to the array. -/
def jsSlice (a : List ℚ) (e : Int) : List ℚ :=
  if e < 0 then a.take ((a.length : Int) + e).toNat else a.take e.toNat

/-- The sample content of `getConcatenatedBlob()` (the final WAV encoding of
the trimmed buffer is not modelled). -/
def getConcatenatedSamples (m : AudioBufferManager) : List ℚ :=
  let pcms := m.chunks.map (fun c => c.pcm)
  let totalSamples := (pcms.map List.length).sum
  let final := pcms.foldl (concatStep m.crossfade m.crossfadeSamples)
    ⟨List.replicate totalSamples 0, 0⟩
  jsSlice final.buf final.offset

/-! ## Streaming session (`predictStream` / `cancelStream`)

The orchestrator's chunk loop checks `currentSession.state === 'cancelled'`
before starting each chunk and breaks if so; after the loop the source runs
`bufferManager.finalize(); currentSession.state = 'completed'`
unconditionally.  The model abstracts one run with `numChunks` text chunks
in which an external `cancelStream()` call fires at the first point where
`cancelAfter` chunks have been delivered (i.e. between loop iterations, as
cancellation is checked cooperatively); it returns the number of delivered
chunks and the session state after `predictStream` returns. -/

/-- The `state` field of `StreamingSession` (`'initializing'` is named
`init` here). -/
inductive SessionState where
  | init
  | streaming
  | completed
  | error
  | cancelled
deriving DecidableEq, Repr

/-- `cancelStream()`: sets the state to `cancelled` only when it is
currently `streaming`. -/
def cancelStream (s : SessionState) : SessionState :=
  if s = .streaming then .cancelled else s

/-- The per-chunk loop of `predictStream`: `remaining` chunks left,
`delivered` chunks delivered so far.  The external cancel request fires when
exactly `cancelAfter` chunks have been delivered; the loop then checks the
state and breaks before processing the next chunk. -/
def streamLoop (cancelAfter : Nat) : Nat → Nat → SessionState → Nat × SessionState
  | 0, delivered, st => (delivered, st)
  | remaining + 1, delivered, st =>
    let st1 := if delivered = cancelAfter then cancelStream st else st
    if st1 = .cancelled then (delivered, st1)
    else streamLoop cancelAfter remaining (delivered + 1) st1

/-- A `predictStream` run over `numChunks` text chunks with a cancellation
request issued once `cancelAfter` chunks are delivered.  After the loop the
source executes `currentSession.state = 'completed'` unconditionally, which
is why the final state ignores the loop's exit state. -/
def predictStreamRun (numChunks cancelAfter : Nat) : Nat × SessionState :=
  let r := streamLoop cancelAfter numChunks 0 .streaming
  (r.1, SessionState.completed)

/-! ## Concrete instances used by counterexamples and witnesses -/

/-- A stored chunk sequence whose first chunk is empty: crossfade enabled,
`crossfadeSamples = 1`. -/
def cexConcatMgr : AudioBufferManager :=
  { chunks := [⟨[], 0, 0, 0, true, false, []⟩, ⟨[1, 2], 1, 0, 0, false, false, []⟩]
    sampleRate := 22050, crossfade := true, crossfadeSamples := 1
    normalize := true, targetPeak := 0.95, totalDuration := 0 }

/-- Two stored two-sample chunks, crossfade enabled with a one-sample
ramp. -/
def exConcatMgr : AudioBufferManager :=
  { chunks := [⟨[1, 2], 0, 0, 0, true, false, []⟩, ⟨[3, 4], 1, 0, 0, false, false, []⟩]
    sampleRate := 22050, crossfade := true, crossfadeSamples := 1
    normalize := true, targetPeak := 0.95, totalDuration := 0 }

/-- A manager holding two chunks, none marked last. -/
def exFinalizeMgr : AudioBufferManager :=
  { chunks := [⟨[1], 0, 0, 0, true, false, []⟩, ⟨[2], 1, 0, 0, false, false, []⟩]
    sampleRate := 22050, crossfade := true, crossfadeSamples := 1
    normalize := true, targetPeak := 0.95, totalDuration := 0 }

/-- Out-of-range configuration: negative sample rate and negative crossfade
duration. -/
def badOptions : BufferManagerOptions :=
  ⟨some (-1), some true, some (-5), some true, some 0.95⟩

/-- A fresh manager with sample rate 1, crossfade and normalization off. -/
def exDurMgr : AudioBufferManager :=
  { chunks := [], sampleRate := 1, crossfade := false, crossfadeSamples := 0
    normalize := false, targetPeak := 1, totalDuration := 0 }

end Vits

namespace Vits

/-! ## Helper lemmas -/

theorem modifyLast_getLast? {α : Type} (f : α → α) :
    ∀ (l : List α) (c : α), l.getLast? = some c → modifyLast f l = l.dropLast ++ [f c]
  | [x], c, h => by
    simp only [List.getLast?_singleton, Option.some.injEq] at h
    subst h
    simp [modifyLast]
  | x :: y :: ys, c, h => by
    rw [List.getLast?_cons_cons] at h
    rw [List.dropLast_cons₂]
    show x :: modifyLast f (y :: ys) = x :: ((y :: ys).dropLast ++ [f c])
    rw [modifyLast_getLast? f (y :: ys) c h]

theorem modifyLast_ne_nil {α : Type} (f : α → α) :
    ∀ (l : List α), l ≠ [] → modifyLast f l ≠ []
  | [], h => absurd rfl h
  | [x], _ => by simp [modifyLast]
  | x :: y :: ys, _ => by simp [modifyLast]

theorem modifyLast_cons₂ {α : Type} (f : α → α) (x : α) :
    ∀ (l : List α), l ≠ [] → modifyLast f (x :: l) = x :: modifyLast f l
  | [], h => absurd rfl h
  | y :: ys, _ => rfl

theorem modifyLast_modifyLast {α : Type} (f g : α → α) :
    ∀ l : List α, modifyLast f (modifyLast g l) = modifyLast (fun x => f (g x)) l
  | [] => rfl
  | [x] => rfl
  | x :: y :: ys => by
    rw [show modifyLast g (x :: y :: ys) = x :: modifyLast g (y :: ys) from rfl,
      modifyLast_cons₂ f x _ (modifyLast_ne_nil g (y :: ys) (List.cons_ne_nil y ys)),
      modifyLast_modifyLast f g (y :: ys),
      show modifyLast (fun x => f (g x)) (x :: y :: ys)
        = x :: modifyLast (fun x => f (g x)) (y :: ys) from rfl]

/-! ## Claim theorems -/

/-- Claim C1 (code bug, evaluated at the failing input): with `n = 2` text
chunks and a cancellation request issued after chunk `k = 1` is delivered,
the run delivers exactly 1 chunk — but the cooperative break is followed by
the unconditional `currentSession.state = 'completed'` assignment, so the
session ends in state `completed`, not `cancelled` as the claim requires.
The first conjunct shows the loop itself exits in state `cancelled` with 1
chunk delivered; the second shows `predictStream` then reports
`completed`. -/
theorem cancel_midstream_completes :
    streamLoop 1 2 0 .streaming = (1, SessionState.cancelled) ∧
    predictStreamRun 2 1 = (1, SessionState.completed) := by
  constructor <;> rfl

/-- Claim C2 (counterexample): `detectSentenceBoundaries "Wait... really?"`
does not return exactly one boundary. -/
theorem ellipsis_claim_counterexample :
    (detectSentenceBoundaries (str "Wait... really?")).length ≠ 1 := by decide

/-- Claim C2 (amended): `"Wait... really?"` yields exactly two boundaries:
one at index 6 (the third period of the ellipsis, which is followed by
whitespace and therefore classified a boundary by the fallback rule — the
ellipsis check only rejects a period followed by two further periods) and
one at index 14 (the `?`). -/
theorem ellipsis_boundaries_amended :
    detectSentenceBoundaries (str "Wait... really?") = [6, 14] := by decide

/-- Claim C3 (counterexample): the input does not split into exactly two
sentences. -/
theorem abbreviation_claim_counterexample :
    (splitIntoSentences
        (str "Dr. Smith arrived at 3:30 p.m. The meeting was productive.")).length ≠ 2 := by
  decide

/-- Claim C3 (amended): the input splits into exactly three sentences.
`"Dr."` is followed by whitespace and an uppercase letter, which the
abbreviation rule explicitly treats as a boundary (abbreviation used
sentence-finally), so the text splits after `"Dr."`.  The other two claims
hold: there is no split inside `"3:30"`, and a sentence ends at
`"p.m."`. -/
theorem abbreviation_sentences_amended :
    splitIntoSentences
        (str "Dr. Smith arrived at 3:30 p.m. The meeting was productive.") =
      [str "Dr.", str "Smith arrived at 3:30 p.m.",
       str "The meeting was productive."] := by decide

/-- Claim C9 (counterexample): constructing with a negative sample rate and
a negative crossfade duration does not fail — the constructor stores the
out-of-range values as given (`sampleRate = -1`,
`crossfadeSamples = ⌊(-5)·(-1)/1000⌋ = 0`) and performs no validation. -/
theorem constructor_accepts_counterexample :
    (createBufferManager badOptions).sampleRate = -1 ∧
    (createBufferManager badOptions).crossfadeSamples = 0 ∧
    (createBufferManager badOptions).chunks = [] := by
  refine ⟨?_, ?_, ?_⟩ <;> norm_num [createBufferManager, badOptions]

/-- Claim C9 (amended): the constructor accepts every configuration,
including a negative sample rate and a negative crossfade duration; the
values are stored unvalidated (with `??`-defaults), and no configuration
error exists in the component. -/
theorem constructor_no_validation_amended (r cd : ℚ) (hr : r < 0) (hcd : cd < 0) :
    (createBufferManager ⟨some r, some true, some cd, some true, some 0.95⟩).sampleRate = r ∧
    (createBufferManager ⟨some r, some true, some cd, some true, some 0.95⟩).crossfadeSamples
      = ⌊cd * r / 1000⌋ := by
  constructor <;> simp [createBufferManager]

/-- Witness for the amended C9 theorem at `r = -1`, `cd = -5`. -/
theorem constructor_no_validation_amended_witness :
    (createBufferManager ⟨some (-1), some true, some (-5), some true, some 0.95⟩).sampleRate = -1 ∧
    (createBufferManager ⟨some (-1), some true, some (-5), some true, some 0.95⟩).crossfadeSamples
      = ⌊(-5 : ℚ) * (-1) / 1000⌋ :=
  constructor_no_validation_amended (-1) (-5) (by norm_num) (by norm_num)

/-- Claim C10: after `setSampleRate(r)` the crossfade sample count equals
`⌊20·r/1000⌋` — the 20 ms duration is hard-coded — for every construction
configuration, so a custom `crossfadeDuration` option is silently
discarded by `setSampleRate`. -/
theorem setSampleRate_hardcoded_crossfade (options : BufferManagerOptions) (r : ℚ) :
    (setSampleRate (createBufferManager options) r).crossfadeSamples = ⌊20 * r / 1000⌋ ∧
    (setSampleRate (createBufferManager options) r).sampleRate = r := by
  constructor <;> simp [setSampleRate]

/-- Claim C7: `finalize()` is a no-op on an empty buffer, is idempotent,
rewrites exactly the most recently appended chunk (setting its `isLast`)
while leaving every other chunk untouched, and — on any buffer whose stored
chunks are all unmarked, as `addChunk` produces them — leaves exactly one
chunk with `isLast = true`. -/
theorem finalize_isLast_exact (m : AudioBufferManager) :
    (m.chunks = [] → finalizeBuffer m = m) ∧
    finalizeBuffer (finalizeBuffer m) = finalizeBuffer m ∧
    (∀ c, m.chunks.getLast? = some c →
      (finalizeBuffer m).chunks = m.chunks.dropLast ++ [{ c with isLast := true }]) ∧
    ((∀ c ∈ m.chunks, c.isLast = false) → m.chunks ≠ [] →
      ((finalizeBuffer m).chunks.countP (fun c => c.isLast)) = 1) := by
  refine ⟨?_, ?_, ?_, ?_⟩
  · intro h
    cases m
    simp_all [finalizeBuffer, modifyLast]
  · simp only [finalizeBuffer, modifyLast_modifyLast]
  · intro c h
    simp only [finalizeBuffer]
    exact modifyLast_getLast? _ m.chunks c h
  · intro hall hne
    rcases hc : m.chunks.getLast? with _ | c
    · rw [List.getLast?_eq_none_iff] at hc
      exact absurd hc hne
    · simp only [finalizeBuffer, modifyLast_getLast? _ m.chunks c hc, List.countP_append]
      have h0 : (m.chunks.dropLast.countP (fun c => c.isLast)) = 0 := by
        rw [List.countP_eq_zero]
        intro a ha
        simp [hall a (List.dropLast_subset _ ha)]
      rw [h0]
      simp [List.countP_cons]

/-- Witness for the C7 theorem at a two-chunk buffer: finalize marks the
second chunk and produces exactly one `isLast` chunk. -/
theorem finalize_isLast_exact_witness :
    (finalizeBuffer exFinalizeMgr).chunks
      = exFinalizeMgr.chunks.dropLast ++ [{ (⟨[2], 1, 0, 0, false, false, []⟩ : AudioChunk) with isLast := true }] ∧
    ((finalizeBuffer exFinalizeMgr).chunks.countP (fun c => c.isLast)) = 1 := by
  have h := finalize_isLast_exact exFinalizeMgr
  exact ⟨h.2.2.1 _ rfl, h.2.2.2 (by decide) (by decide)⟩

theorem addChunk_fst_totalDuration (m : AudioBufferManager) (pcm : List ℚ) (text : List Char) :
    (addChunk m pcm text).1.totalDuration = m.totalDuration + (addChunk m pcm text).2.duration := rfl

theorem addChunk_snd_startTime (m : AudioBufferManager) (pcm : List ℚ) (text : List Char) :
    (addChunk m pcm text).2.startTime = m.totalDuration := rfl

theorem runAddChunks_totalDuration :
    ∀ (ps : List (List ℚ)) (m : AudioBufferManager),
      (runAddChunks m ps).1.totalDuration
        = m.totalDuration + ((runAddChunks m ps).2.map (fun c => c.duration)).sum
  | [], m => by simp [runAddChunks]
  | p :: ps, m => by
    have ih := runAddChunks_totalDuration ps (addChunk m p []).1
    simp only [runAddChunks, List.map_cons, List.sum_cons]
    rw [ih, addChunk_fst_totalDuration]
    ring

theorem runAddChunks_startTime :
    ∀ (ps : List (List ℚ)) (m : AudioBufferManager) (i : Nat)
      (hi : i < (runAddChunks m ps).2.length),
      ((runAddChunks m ps).2.get ⟨i, hi⟩).startTime
        = m.totalDuration + (((runAddChunks m ps).2.take i).map (fun c => c.duration)).sum
  | p :: ps, m, 0, hi => by
    simp only [runAddChunks, List.get, List.take_zero, List.map_nil, List.sum_nil, add_zero]
    exact addChunk_snd_startTime m p []
  | p :: ps, m, i + 1, hi => by
    have hi' : i < (runAddChunks (addChunk m p []).1 ps).2.length := by
      simpa [runAddChunks] using hi
    have ih := runAddChunks_startTime ps (addChunk m p []).1 i hi'
    simp only [runAddChunks, List.get, List.take_succ_cons, List.map_cons, List.sum_cons]
    rw [ih, addChunk_fst_totalDuration]
    ring

/-- Claim C5: for every sequence of `addChunk` calls on a fresh manager,
under every crossfade and normalization setting, `getTotalDuration()`
afterwards equals the sum of the returned chunks' `duration` values, and
each returned chunk's `startTime` equals the running total duration before
its `addChunk` call (the sum of the durations returned before it). -/
theorem duration_accounting (m0 : AudioBufferManager) (pcms : List (List ℚ))
    (h0 : m0.totalDuration = 0) (hrate : 0 < m0.sampleRate) :
    getTotalDuration (runAddChunks m0 pcms).1
      = ((runAddChunks m0 pcms).2.map (fun c => c.duration)).sum ∧
    ∀ (i : Nat) (hi : i < (runAddChunks m0 pcms).2.length),
      ((runAddChunks m0 pcms).2.get ⟨i, hi⟩).startTime
        = (((runAddChunks m0 pcms).2.take i).map (fun c => c.duration)).sum := by
  constructor
  · rw [getTotalDuration, runAddChunks_totalDuration, h0, zero_add]
  · intro i hi
    rw [runAddChunks_startTime pcms m0 i hi, h0, zero_add]

/-- Witness for the C5 theorem: a fresh manager at sample rate 1 and two
`addChunk` calls. -/
theorem duration_accounting_witness :
    getTotalDuration (runAddChunks exDurMgr [[5], [7, 9]]).1
      = ((runAddChunks exDurMgr [[5], [7, 9]]).2.map (fun c => c.duration)).sum :=
  (duration_accounting exDurMgr [[5], [7, 9]] rfl (by norm_num [exDurMgr])).1

theorem findPeak_step (p x : ℚ) : (if |x| > p then |x| else p) = max p |x| := by
  rcases le_or_lt |x| p with h | h
  · rw [if_neg (not_lt.mpr h), max_eq_left h]
  · rw [if_pos h, max_eq_right h.le]

theorem findPeak_eq_foldl_max (l : List ℚ) :
    findPeak l = l.foldl (fun p x => max p |x|) 0 := by
  unfold findPeak
  congr 1
  funext p x
  exact findPeak_step p x

theorem foldl_max_init_le :
    ∀ (l : List ℚ) (a : ℚ), a ≤ l.foldl (fun p x => max p |x|) a
  | [], a => le_refl a
  | x :: xs, a => le_trans (le_max_left a |x|) (foldl_max_init_le xs _)

theorem abs_le_foldl_max :
    ∀ (l : List ℚ) (a : ℚ) (y : ℚ), y ∈ l → |y| ≤ l.foldl (fun p x => max p |x|) a
  | x :: xs, a, y, h => by
    rcases List.mem_cons.mp h with rfl | h'
    · exact le_trans (le_max_right a |y|) (foldl_max_init_le xs _)
    · exact abs_le_foldl_max xs _ y h'

theorem foldl_max_smul :
    ∀ (l : List ℚ) (a g : ℚ), 0 < g →
      (l.map (fun x => x * g)).foldl (fun p x => max p |x|) (a * g)
        = (l.foldl (fun p x => max p |x|) a) * g
  | [], _, _, _ => rfl
  | x :: xs, a, g, hg => by
    have habs : |x * g| = |x| * g := by rw [abs_mul, abs_of_pos hg]
    simp only [List.map_cons, List.foldl_cons, habs]
    rw [← max_mul_of_nonneg _ _ hg.le]
    exact foldl_max_smul xs _ g hg

theorem clamp_of_abs_le (y : ℚ) (h : |y| ≤ 1) : max (-1) (min 1 y) = y := by
  rcases abs_le.mp h with ⟨h1, h2⟩
  rw [min_eq_right h2, max_eq_right h1]

/-- Claim C6: with normalization enabled and a target peak `t` in `(0, 1]`
(the default is 0.95): a sample array with nonzero peak below `t`
normalizes to an array whose peak is exactly `t`; an array whose peak is
zero or already at least `t` is returned unchanged.  In particular
normalization never amplifies past the target, and the `t / peak` gain is
only formed when the peak is nonzero. -/
theorem normalization_peak (t : ℚ) (pcm : List ℚ) (ht0 : 0 < t) (ht1 : t ≤ 1) :
    (0 < findPeak pcm → findPeak pcm < t →
      findPeak (normalizeAudio t pcm) = t) ∧
    (findPeak pcm = 0 ∨ findPeak pcm ≥ t → normalizeAudio t pcm = pcm) := by
  constructor
  · intro hp0 hpt
    have hcond : ¬(findPeak pcm = 0 ∨ findPeak pcm ≥ t) := by
      push_neg
      exact ⟨ne_of_gt hp0, hpt⟩
    have hgain : 0 < t / findPeak pcm := div_pos ht0 hp0
    unfold normalizeAudio
    rw [if_neg hcond]
    have hmap : pcm.map (fun x => max (-1) (min 1 (x * (t / findPeak pcm))))
        = pcm.map (fun x => x * (t / findPeak pcm)) := by
      apply List.map_congr_left
      intro x hx
      apply clamp_of_abs_le
      have hxle : |x| ≤ findPeak pcm := by
        rw [findPeak_eq_foldl_max]
        exact abs_le_foldl_max pcm 0 x hx
      have : |x * (t / findPeak pcm)| = |x| * (t / findPeak pcm) := by
        rw [abs_mul, abs_of_pos hgain]
      rw [this]
      calc |x| * (t / findPeak pcm)
          ≤ findPeak pcm * (t / findPeak pcm) := by
            exact mul_le_mul_of_nonneg_right hxle hgain.le
        _ = t := by rw [mul_comm, div_mul_cancel₀ t (ne_of_gt hp0)]
        _ ≤ 1 := ht1
    have key : ∀ g : ℚ, 0 < g →
        findPeak (pcm.map (fun x => x * g)) = findPeak pcm * g := by
      intro g hg
      rw [findPeak_eq_foldl_max, findPeak_eq_foldl_max]
      have hsm := foldl_max_smul pcm 0 g hg
      rwa [zero_mul] at hsm
    rw [hmap, key _ hgain, mul_comm, div_mul_cancel₀ t (ne_of_gt hp0)]
  · intro h
    unfold normalizeAudio
    rw [if_pos h]

/-- Witness for the C6 theorem: the array `[1/2, -1/4]` has peak `1/2`,
below the default target `0.95`, and normalizes to peak exactly `0.95`. -/
theorem normalization_peak_witness :
    findPeak (normalizeAudio 0.95 [1/2, -1/4]) = 0.95 :=
  (normalization_peak 0.95 [1/2, -1/4] (by norm_num) (by norm_num)).1
    (by norm_num [findPeak, abs_of_nonneg, abs_of_nonpos])
    (by norm_num [findPeak, abs_of_nonneg, abs_of_nonpos])

theorem chunksFrom_step (s : List (List Char)) (cs la i idx : Nat)
    (h1 : i < s.length) (h2 : 0 < cs) :
    chunksFrom s cs la i idx =
      { text := joinSp ((s.drop i).take cs)
        index := idx
        isFirst := i = 0
        isLast := s.length ≤ i + cs
        previousContext := if 0 < i then some (joinSp ((s.take i).drop (i - la))) else none
        lookaheadContext :=
          if i + cs < s.length then
            some (joinSp ((s.take (min s.length (i + cs + la))).drop (i + cs)))
          else none } :: chunksFrom s cs la (i + cs) (idx + 1) := by
  rw [chunksFrom]
  exact dif_pos ⟨h1, h2⟩

theorem chunksFrom_stop (s : List (List Char)) (cs la i idx : Nat)
    (h : ¬(i < s.length ∧ 0 < cs)) : chunksFrom s cs la i idx = [] := by
  rw [chunksFrom]
  exact dif_neg h

theorem joinSp_singleton (x : List Char) : joinSp [x] = x := by
  simp [joinSp, List.intercalate]

theorem take_one_cons {α : Type} (x : α) (l : List α) : (x :: l).take 1 = [x] := rfl

/-- Claim C8: on any text that splits into exactly three sentences,
`createTextChunks` with `chunkSize = 1` and `lookahead = 1` produces exactly
three chunks with contiguous zero-based indices `0, 1, 2`, `isFirst` /
`isLast` set by position, chunk 2 carrying sentence 1 as `previousContext`
and sentence 3 as `lookaheadContext`, chunk 1 without `previousContext`,
and chunk 3 without `lookaheadContext`. -/
theorem chunking_three_sentences (text : List Char) (a b c : List Char)
    (h : splitIntoSentences text = [a, b, c]) :
    createTextChunks text 1 1 =
      [{ text := a, index := 0, isFirst := true, isLast := false,
         previousContext := none, lookaheadContext := some b },
       { text := b, index := 1, isFirst := false, isLast := false,
         previousContext := some a, lookaheadContext := some c },
       { text := c, index := 2, isFirst := false, isLast := true,
         previousContext := some b, lookaheadContext := none }] := by
  unfold createTextChunks
  rw [h]
  rw [chunksFrom_step _ _ _ 0 0 (by norm_num) one_pos]
  norm_num [joinSp_singleton]
  rw [chunksFrom_step _ _ _ 1 1 (by norm_num) one_pos]
  norm_num [joinSp_singleton]
  rw [chunksFrom_step _ _ _ 2 2 (by norm_num) one_pos]
  norm_num [joinSp_singleton]
  rw [chunksFrom_stop _ _ _ 3 3 (by norm_num)]
  norm_num [joinSp_singleton, take_one_cons]

/-- Witness for the C8 theorem: `"One. Two. Three."` splits into three
sentences and chunks as the claim states. -/
theorem chunking_three_sentences_witness :
    createTextChunks (str "One. Two. Three.") 1 1 =
      [{ text := str "One.", index := 0, isFirst := true, isLast := false,
         previousContext := none, lookaheadContext := some (str "Two.") },
       { text := str "Two.", index := 1, isFirst := false, isLast := false,
         previousContext := some (str "One."), lookaheadContext := some (str "Three.") },
       { text := str "Three.", index := 2, isFirst := false, isLast := true,
         previousContext := some (str "Two."), lookaheadContext := none }] :=
  chunking_three_sentences (str "One. Two. Three.") (str "One.") (str "Two.")
    (str "Three.") (by decide)

theorem length_jsSetElem (a : List ℚ) (i : Int) (v : ℚ) :
    (jsSetElem a i v).length = a.length := by
  unfold jsSetElem
  split <;> simp

theorem length_jsSetRange :
    ∀ (src : List ℚ) (a : List ℚ) (off : Int), (jsSetRange a off src).length = a.length
  | [], _, _ => rfl
  | v :: rest, a, off => by
    rw [show jsSetRange a off (v :: rest) = jsSetRange (jsSetElem a off v) (off + 1) rest
        from rfl,
      length_jsSetRange rest, length_jsSetElem]

theorem length_blendLoop (cf os : Int) :
    ∀ (c : List ℚ) (a : List ℚ) (i : Nat), (blendLoop cf os a i c).length = a.length
  | [], _, _ => rfl
  | v :: rest, a, i => by
    rw [blendLoop]
    split
    · rw [length_blendLoop cf os rest]
      split
      · rw [length_jsSetElem]
      · rfl
    · rfl

theorem length_concatStep (cr : Bool) (cf : Int) (st : ConcatSt) (pcm : List ℚ) :
    (concatStep cr cf st pcm).buf.length = st.buf.length := by
  unfold concatStep
  split
  · show (jsSetRange (blendLoop _ _ _ _ _) _ _).length = _
    rw [length_jsSetRange, length_blendLoop]
  · show (jsSetRange _ _ _).length = _
    rw [length_jsSetRange]

theorem length_concatFold (cr : Bool) (cf : Int) :
    ∀ (pcms : List (List ℚ)) (st : ConcatSt),
      (pcms.foldl (concatStep cr cf) st).buf.length = st.buf.length
  | [], _ => rfl
  | p :: ps, st => by
    rw [List.foldl_cons, length_concatFold cr cf ps, length_concatStep]

theorem concatFold_offset_else (cf : Int) (hcf : cf ≤ 0) (cr : Bool) :
    ∀ (pcms : List (List ℚ)) (st : ConcatSt),
      (pcms.foldl (concatStep cr cf) st).offset
        = st.offset + (pcms.map (fun p => (p.length : Int))).sum
  | [], st => by simp
  | p :: ps, st => by
    have hstep : (concatStep cr cf st p).offset = st.offset + (p.length : Int) := by
      unfold concatStep
      rw [if_neg (fun hcond => absurd hcond.2.2 (not_lt.mpr hcf))]
    have ih := concatFold_offset_else cf hcf cr ps (concatStep cr cf st p)
    simp only [List.foldl_cons, List.map_cons, List.sum_cons]
    rw [ih, hstep]
    ring

theorem concatFold_offset_cross (cf : Int) (hcf : 0 < cf) :
    ∀ (pcms : List (List ℚ)) (st : ConcatSt),
      0 < st.offset →
      (∀ p ∈ pcms, cf ≤ (p.length : Int)) →
      (pcms.foldl (concatStep true cf) st).offset
        = st.offset + (pcms.map (fun p => (p.length : Int))).sum - pcms.length * cf
  | [], st, _, _ => by simp
  | p :: ps, st, h0, hall => by
    have hp : cf ≤ (p.length : Int) := hall p (List.mem_cons_self p ps)
    have hstep : (concatStep true cf st p).offset = st.offset + (p.length : Int) - cf := by
      unfold concatStep
      rw [if_pos ⟨rfl, h0, hcf⟩]
    have h0' : 0 < (concatStep true cf st p).offset := by rw [hstep]; omega
    have ih := concatFold_offset_cross cf hcf ps (concatStep true cf st p) h0'
      (fun q hq => hall q (List.mem_cons_of_mem p hq))
    simp only [List.foldl_cons, List.map_cons, List.sum_cons, List.length_cons]
    rw [ih, hstep]
    push_cast
    ring

theorem sum_map_length_ge (cf : Int) :
    ∀ (ps : List (List ℚ)), (∀ p ∈ ps, cf ≤ (p.length : Int)) →
      (ps.length : Int) * cf ≤ (ps.map (fun p => (p.length : Int))).sum
  | [], _ => by simp
  | p :: ps, hall => by
    have hp : cf ≤ (p.length : Int) := hall p (List.mem_cons_self p ps)
    have ih := sum_map_length_ge cf ps (fun q hq => hall q (List.mem_cons_of_mem p hq))
    simp only [List.map_cons, List.sum_cons, List.length_cons]
    push_cast
    linarith

theorem jsGetD_jsSetElem_ne (a : List ℚ) (p j : Int) (h : j ≠ p) (v : ℚ) :
    jsGetD (jsSetElem a p v) j = jsGetD a j := by
  unfold jsGetD jsSetElem
  split
  · split
    · rw [List.getD_eq_getElem?_getD, List.getD_eq_getElem?_getD,
        List.getElem?_set_ne (show p.toNat ≠ j.toNat by omega)]
    · rfl
  · rfl

theorem blendLoop_locality (cf os : Int) :
    ∀ (c : List ℚ) (i : Nat) (a : List ℚ) (j : Int),
      (j < os + (i : Int) ∨ os + cf ≤ j ∨ os + (i : Int) + (c.length : Int) ≤ j) →
      jsGetD (blendLoop cf os a i c) j = jsGetD a j
  | [], _, _, _, _ => rfl
  | v :: rest, i, a, j, h => by
    simp only [List.length_cons] at h
    rw [blendLoop]
    split
    case isTrue hi =>
      have h' : j < os + ((i + 1 : Nat) : Int) ∨ os + cf ≤ j ∨
          os + ((i + 1 : Nat) : Int) + (rest.length : Int) ≤ j := by
        push_cast at h ⊢
        omega
      rw [blendLoop_locality cf os rest (i + 1) _ j h']
      have hne : j ≠ os + (i : Int) := by
        push_cast at h
        omega
      split
      · exact jsGetD_jsSetElem_ne a (os + (i : Int)) j hne _
      · rfl
    case isFalse hi => rfl

/-- Claim C4 (counterexample): for the stored chunk sequence
`[[], [1, 2]]` with crossfade enabled and `crossfadeSamples = 1`, the
concatenated buffer has 2 samples, but the claimed formula
(sum of lengths minus `(chunkCount - 1) × crossfadeSamples`) gives 1: the
empty first chunk leaves the write offset at 0, so the second chunk takes
the plain-copy branch and no overlap is trimmed. -/
theorem concat_length_claim_counterexample :
    (getConcatenatedSamples cexConcatMgr).length = 2 ∧
    (cexConcatMgr.chunks.map (fun c => c.pcm.length)).sum
        - (cexConcatMgr.chunks.length - 1) * cexConcatMgr.crossfadeSamples.toNat = 1 ∧
    (2 : Nat) ≠ 1 :=
  ⟨by decide, by decide, by decide⟩

/-- Claim C4 (amended): for every stored chunk sequence with crossfade
enabled, a nonnegative crossfade sample count, and at least one chunk, in
which every chunk is nonempty and at least `crossfadeSamples` long, the
concatenated sample buffer length equals the sum of the chunks' sample
counts minus `(chunkCount - 1) × crossfadeSamples`; moreover the blend loop
never touches an output position at or beyond
`overlapStart + min(crossfadeSamples, incoming chunk length)` — no fade is
applied past whichever of the ramp length and the incoming chunk's length
is shorter. -/
theorem concat_length_amended (m : AudioBufferManager)
    (hcr : m.crossfade = true) (hcf : 0 ≤ m.crossfadeSamples) (hne : m.chunks ≠ [])
    (hlen : ∀ c ∈ m.chunks, c.pcm ≠ [] ∧ m.crossfadeSamples ≤ (c.pcm.length : Int)) :
    (getConcatenatedSamples m).length + (m.chunks.length - 1) * m.crossfadeSamples.toNat
      = (m.chunks.map (fun c => c.pcm.length)).sum ∧
    (∀ (cf os : Int) (a pcm : List ℚ) (j : Int),
      (j < os ∨ os + min cf (pcm.length : Int) ≤ j) →
      jsGetD (blendLoop cf os a 0 pcm) j = jsGetD a j) := by
  constructor
  · obtain ⟨c0, cs, hchunks⟩ : ∃ c0 cs, m.chunks = c0 :: cs := by
      cases hm : m.chunks with
      | nil => exact absurd hm hne
      | cons c0 cs => exact ⟨c0, cs, rfl⟩
    have hfirst : ∀ (buf p : List ℚ),
        concatStep m.crossfade m.crossfadeSamples ⟨buf, 0⟩ p
          = ⟨jsSetRange buf 0 p, (p.length : Int)⟩ := by
      intro buf p
      unfold concatStep
      rw [if_neg (fun hcond => absurd hcond.2.1 (lt_irrefl 0))]
      norm_num
    have hc0 : c0.pcm ≠ [] ∧ m.crossfadeSamples ≤ (c0.pcm.length : Int) :=
      hlen c0 (by rw [hchunks]; exact List.mem_cons_self _ _)
    have hq0pos : 0 < (c0.pcm.length : Int) := by
      cases hc : c0.pcm with
      | nil => exact absurd hc hc0.1
      | cons x xs => simp [hc]
    have hallP : ∀ p ∈ cs.map (fun c => c.pcm), m.crossfadeSamples ≤ (p.length : Int) := by
      intro p hp
      obtain ⟨c, hcmem, rfl⟩ := List.mem_map.mp hp
      exact (hlen c (by rw [hchunks]; exact List.mem_cons_of_mem _ hcmem)).2
    have hcast : ((cs.map (fun c => c.pcm)).map (fun p => (p.length : Int))).sum
        = (((cs.map (fun c => c.pcm)).map List.length).sum : Int) := by
      rw [Nat.cast_list_sum]
      simp only [List.map_map]
      rfl
    simp only [getConcatenatedSamples, hchunks, List.map_cons, List.foldl_cons, hfirst,
      List.length_cons, List.sum_cons, Nat.add_sub_cancel]
    set T : Nat := c0.pcm.length + ((cs.map (fun c => c.pcm)).map List.length).sum with hT
    set st0 : ConcatSt :=
      ⟨jsSetRange (List.replicate T 0) 0 c0.pcm, (c0.pcm.length : Int)⟩ with hst0
    have hst0off : st0.offset = (c0.pcm.length : Int) := rfl
    have hst0len : st0.buf.length = T := by
      show (jsSetRange _ _ _).length = T
      rw [length_jsSetRange, List.length_replicate]
    rcases eq_or_lt_of_le hcf with hcf0 | hcfpos
    · -- crossfadeSamples = 0: every chunk takes the plain-copy branch
      have hoffall := concatFold_offset_else m.crossfadeSamples (le_of_eq hcf0.symm)
        m.crossfade (cs.map (fun c => c.pcm)) st0
      rw [hcast] at hoffall
      have hblen := length_concatFold m.crossfade m.crossfadeSamples
        (cs.map (fun c => c.pcm)) st0
      rw [hoffall]
      simp only [hst0off]
      unfold jsSlice
      rw [if_neg (by omega)]
      rw [List.length_take, hblen, hst0len]
      rw [← hcf0]
      simp only [List.map_map, Function.comp_def, hT, Int.toNat_zero, Nat.mul_zero]
      omega
    · -- 0 < crossfadeSamples
      rw [hcr]
      have hoff := concatFold_offset_cross m.crossfadeSamples hcfpos
        (cs.map (fun c => c.pcm)) st0 (by rw [hst0off]; exact hq0pos) hallP
      rw [hcast] at hoff
      simp only [List.length_map] at hoff
      have hblen := length_concatFold true m.crossfadeSamples
        (cs.map (fun c => c.pcm)) st0
      have hsumge := sum_map_length_ge m.crossfadeSamples (cs.map (fun c => c.pcm)) hallP
      rw [hcast] at hsumge
      simp only [List.length_map] at hsumge
      rw [hoff]
      unfold jsSlice
      generalize hKn : cs.length * m.crossfadeSamples.toNat = Kn
      have hKcast : (Kn : Int) = (cs.length : Int) * m.crossfadeSamples := by
        rw [← hKn]
        push_cast [Int.toNat_of_nonneg hcf]
        ring
      generalize hKZ : (cs.length : Int) * m.crossfadeSamples = KZ at hKcast hsumge ⊢
      rw [if_neg (by omega)]
      rw [List.length_take, hblen, hst0len]
      simp only [List.map_map, Function.comp_def, hT] at hsumge ⊢
      omega
  · intro cf os a pcm j hj
    apply blendLoop_locality cf os pcm 0 a j
    rcases hj with hj | hj
    · left
      push_cast
      omega
    · rcases min_le_iff.mp (by omega : min cf (pcm.length : Int) ≤ j - os) with hm | hm
      · right; left; omega
      · right; right; push_cast; omega

/-- Witness for the amended C4 theorem: two two-sample chunks with a
one-sample crossfade concatenate to `2 + 2 - 1 = 3` samples. -/
theorem concat_length_amended_witness :
    (getConcatenatedSamples exConcatMgr).length
        + (exConcatMgr.chunks.length - 1) * exConcatMgr.crossfadeSamples.toNat
      = (exConcatMgr.chunks.map (fun c => c.pcm.length)).sum :=
  (concat_length_amended exConcatMgr rfl (by decide) (by decide) (by decide)).1

end Vits
